import Mathlib

/-!
# Verification of the ProjectNavigator ingestion planner

Shallow embedding of `src/core/ingest.py` (the document ingestion planner):
rule sets, tag classification, file discovery, description resolution and
project planning, together with proofs of the specified properties.

Strings are modelled over Lean `Char` lists; the Python string operations
`str.lower`, `str.strip` and `str.replace("\\", "/")` are modelled for the
ASCII character range (`Char.toLower` agrees with Python `str.lower` there,
and `isPySpace` lists the ASCII whitespace characters stripped by
`str.strip`).
-/

namespace ProjectNavigator

/-- The ASCII whitespace characters recognised by Python `str.strip()`
(space, tab, newline, carriage return, vertical tab, form feed). -/
def isPySpace (c : Char) : Bool :=
  c = ' ' || c = '\t' || c = '\n' || c = '\r' || c = '\x0b' || c = '\x0c'

/-- Python `str.lower()` on a character list (ASCII model). -/
def lowerList (l : List Char) : List Char := l.map Char.toLower

/-- Python `s.replace("\\", "/")` on a character list (the replaced pattern
is a single character, so the substring replacement is a character map). -/
def replaceBackslashes (l : List Char) : List Char :=
  l.map (fun c => if c = '\\' then '/' else c)

/-- Python `str.strip()` on a character list: drop whitespace from the
front, then from the back. -/
def stripList (l : List Char) : List Char :=
  ((l.dropWhile isPySpace).reverse.dropWhile isPySpace).reverse

/-- Python `str.lower()` (ASCII model). -/
def pyLower (s : String) : String := ⟨lowerList s.data⟩

/-- Python `str.strip()` (ASCII model). -/
def pyStrip (s : String) : String := ⟨stripList s.data⟩

/-- Python `s.replace("\\", "/")`. -/
def pyReplaceBackslash (s : String) : String := ⟨replaceBackslashes s.data⟩

/-- Function `_normalize_rel_path` from `ingest.py`:
`rel_path.replace("\\", "/").strip().lower()`. -/
def _normalize_rel_path (rel_path : String) : String :=
  pyLower (pyStrip (pyReplaceBackslash rel_path))

/-! ## The glob matcher (Python `fnmatch.fnmatch`)

`fnmatch.translate` compiles a shell-style pattern into a regex which is then
matched against the whole string: `*` matches any character sequence
(including `/`), `?` any single character, `[...]` a character class with
ranges and `!`-negation; a `[` with no closing `]` is a literal `[`.
The token list below is the compiled form, `tokMatch` is the regex match. -/

/-- Scan for the closing `]` of a character class; returns the class body and
the remaining pattern, or `none` when the class is unterminated. -/
def scanClass : List Char → Option (List Char × List Char)
  | [] => none
  | ']' :: rest => some ([], rest)
  | c :: rest =>
      match scanClass rest with
      | some (cnt, r) => some (c :: cnt, r)
      | none => none

/-- Helper: `fnmatch.translate` treats a `]` in first position of a class body as a
literal member, so the scan for the closing `]` starts after it. -/
def scanSkip (l : List Char) : Option (List Char × List Char) :=
  match l with
  | [] => scanClass []
  | a :: rest =>
      if a = ']' then (scanClass rest).map (fun pr => (']' :: pr.1, pr.2))
      else scanClass (a :: rest)

/-- Parse the body of a `[...]` class (input starts after the `[`): an
optional leading `!` negates, then the body runs to the first `]`
(with the first-position `]` exception). -/
def splitClass (ps : List Char) : Option (Bool × List Char × List Char) :=
  match ps with
  | [] => none
  | a :: rest =>
      if a = '!' then (scanSkip rest).map (fun pr => (true, pr.1, pr.2))
      else (scanSkip (a :: rest)).map (fun pr => (false, pr.1, pr.2))

/-- A compiled pattern element, mirroring the regex pieces emitted by
`fnmatch.translate`. -/
inductive GlobTok where
  | star
  | anyc
  | cls (neg : Bool) (content : List Char)
  | lit (c : Char)
deriving DecidableEq

/-- Pattern compilation. Every step consumes at least one pattern character,
so the pattern length is enough fuel; the explicit fuel keeps the recursion
structural (the class case continues from the scanned remainder). -/
def translateFuel : Nat → List Char → List GlobTok
  | 0, _ => []
  | _ + 1, [] => []
  | fuel + 1, c :: ps =>
      if c = '*' then GlobTok.star :: translateFuel fuel ps
      else if c = '?' then GlobTok.anyc :: translateFuel fuel ps
      else if c = '[' then
        match splitClass ps with
        | some (neg, content, rest) =>
            GlobTok.cls neg content :: translateFuel fuel rest
        | none => GlobTok.lit '[' :: translateFuel fuel ps
      else GlobTok.lit c :: translateFuel fuel ps

/-- Compilation entry point, `fnmatch.translate` on a character list. -/
def translateGlob (l : List Char) : List GlobTok := translateFuel l.length l

/-- Regex character-class membership: class bodies are characters and
`a-b` ranges, as in the class emitted by `fnmatch.translate`. -/
def classMatch : List Char → Char → Bool
  | a :: '-' :: b :: rest, c =>
      (decide (a ≤ c ∧ c ≤ b)) || classMatch rest c
  | a :: rest, c => (a == c) || classMatch rest c
  | [], _ => false

/-- Star semantics (`.*`): try the remainder of the pattern at every suffix. -/
def starLoop (rest : List Char → Bool) : List Char → Bool
  | [] => rest []
  | c :: s => rest (c :: s) || starLoop rest s

/-- Full-string match of a compiled pattern (the regex produced by
`translate` is matched with `re.match` against the whole name plus `\Z`). -/
def tokMatch : List GlobTok → List Char → Bool
  | [] => fun s => s.isEmpty
  | GlobTok.star :: ts => starLoop (tokMatch ts)
  | GlobTok.anyc :: ts => fun s =>
      match s with
      | [] => false
      | _ :: s2 => tokMatch ts s2
  | GlobTok.cls neg content :: ts => fun s =>
      match s with
      | [] => false
      | c :: s2 => (classMatch content c != neg) && tokMatch ts s2
  | GlobTok.lit a :: ts => fun s =>
      match s with
      | [] => false
      | c :: s2 => (a == c) && tokMatch ts s2

/-- Python `fnmatch.fnmatch(name, pat)` (on POSIX `normcase` is the
identity, so no case folding happens here; `ingest.py` lower-cases both
arguments itself before calling). -/
def fnmatch (nm pat : String) : Bool := tokMatch (translateGlob pat.data) nm.data

/-! ## Rule sets and the tag classifier -/

/-- Dataclass `IngestionRule` from `ingest.py`: match a filename (glob) and attach a
tag. -/
structure IngestionRule where
  «match» : String
  tag : String
deriving DecidableEq

/-- Dataclass `IngestionRules` from `ingest.py`: ordered pattern rules plus the forced
mapping from normalized relative path to a set of tags (the Python `dict` is
modelled as an association list with first-match lookup). -/
structure IngestionRules where
  patterns : List IngestionRule
  forced : List (String × Finset String)

/-- Lookup (`dict.get`) on the forced mapping. -/
def lookupForced : List (String × Finset String) → String → Option (Finset String)
  | [], _ => none
  | (k, v) :: rest, key => if k = key then some v else lookupForced rest key

/-- Function `_collect_tags` from `ingest.py`: add the tag of every pattern rule whose
lower-cased glob matches the lower-cased relative path, then union in the
forced tags found under the normalized relative path. (Python guards the
union with `if forced_tags:`, i.e. skips a falsy empty set; the union with
the empty set is the identity, so the unconditional union agrees.) -/
def _collect_tags (relative_path : String) (rules : IngestionRules) : Finset String :=
  let lowered := pyLower relative_path
  let tags := rules.patterns.foldl
    (fun acc p => if fnmatch lowered (pyLower p.«match») then insert p.tag acc else acc) ∅
  match lookupForced rules.forced (_normalize_rel_path relative_path) with
  | some forced_tags => tags ∪ forced_tags
  | none => tags

/-! ## Filesystem model and the description resolver

A directory is a list of entries; a project directory is its name (the
project identifier) together with its top-level entries. `ensure_description`
is modelled as a function from the project state to an outcome, the project
state after the call (the description file may be created), and a flag
recording whether the provider callback was invoked. -/

inductive FSEntry where
  | file (name : String) (content : String)
  | dir (name : String) (entries : List FSEntry)

structure ProjectDir where
  name : String
  entries : List FSEntry

/-- The error taxonomy of `ingest.py`: `FileNotFoundError`, `ValueError`,
and unclassified filesystem errors (e.g. `read_text` on a directory). -/
inductive IngestError where
  | notFound (msg : String)
  | valueError (msg : String)
  | ioError (msg : String)
deriving DecidableEq

/-- Existence check (`(project_dir / name).exists()`) together with what sits at that name
(first entry with a matching name; a real directory has unique names). -/
def lookupEntry : List FSEntry → String → Option FSEntry
  | [], _ => none
  | FSEntry.file n c :: rest, nm =>
      if n = nm then some (FSEntry.file n c) else lookupEntry rest nm
  | FSEntry.dir n es :: rest, nm =>
      if n = nm then some (FSEntry.dir n es) else lookupEntry rest nm

/-- The default of the `filename` keyword parameter of `ensure_description`,
also used by `plan_project`. -/
def descriptionFilename : String := "description.txt"

/-- The `FileNotFoundError` message of `ensure_description`. -/
def missingDescriptionMsg (filename projectName : String) : String :=
  "Missing " ++ filename ++ " for project '" ++ projectName ++
    "'. Provide a description via the ingestion API or create the file manually."

structure EnsureResult where
  outcome : Except IngestError String
  entries : List FSEntry
  providerInvoked : Bool

/-- Function `ensure_description` from `ingest.py`: read the description file if it
exists (trimmed); otherwise fail with `FileNotFoundError` when no provider is
given; otherwise call the provider, trim, fail with `ValueError` on empty
text, else persist and return the trimmed text. A directory sitting at the
description filename makes `exists()` true and the read raise an
unclassified error. -/
def ensure_description (project : ProjectDir)
    (provider : Option (String → String)) (filename : String) : EnsureResult :=
  match lookupEntry project.entries filename with
  | some (FSEntry.file _ content) =>
      ⟨Except.ok (pyStrip content), project.entries, false⟩
  | some (FSEntry.dir _ _) =>
      ⟨Except.error (IngestError.ioError ("Is a directory: " ++ filename)),
        project.entries, false⟩
  | none =>
      match provider with
      | none =>
          ⟨Except.error (IngestError.notFound
              (missingDescriptionMsg filename project.name)),
            project.entries, false⟩
      | some p =>
          let generated := pyStrip (p project.name)
          if generated = "" then
            ⟨Except.error
                (IngestError.valueError "Description provider returned empty text"),
              project.entries, true⟩
          else
            ⟨Except.ok generated,
              project.entries ++ [FSEntry.file filename generated], true⟩

def entryName : FSEntry → String
  | FSEntry.file n _ => n
  | FSEntry.dir n _ => n

/-! ## File discovery and the project planner -/

/-- The reserved metadata filenames excluded by `_iter_files`
(compared against `path.name.lower()`). -/
def reservedNames : List String := ["description.txt", "readme.md"]

mutual

/-- Function `_iter_files` from `ingest.py`, per entry: a file is yielded as
(relative path, content) unless its lower-cased name is reserved;
a directory contributes its recursive contents and no record of its own.
(`Path.rglob` order is filesystem-dependent; the model fixes one traversal
order, on which no claim depends.) -/
def iterFilesEntry (pre : String) : FSEntry → List (String × String)
  | FSEntry.file name content =>
      if pyLower name ∈ reservedNames then []
      else [(pre ++ name, content)]
  | FSEntry.dir name entries => iterFilesList (pre ++ name ++ "/") entries

def iterFilesList (pre : String) : List FSEntry → List (String × String)
  | [] => []
  | e :: rest => iterFilesEntry pre e ++ iterFilesList pre rest

end

/-- A raw discovered file: relative path, base name, content. -/
structure RawFile where
  rel : String
  name : String
  content : String

mutual

/-- Every file under a tree (`Path.rglob("*")` without the reserved-name
exclusion), with its base name kept for stating the exclusion. -/
def allFilesEntry (pre : String) : FSEntry → List RawFile
  | FSEntry.file name content => [⟨pre ++ name, name, content⟩]
  | FSEntry.dir name entries => allFilesList (pre ++ name ++ "/") entries

def allFilesList (pre : String) : List FSEntry → List RawFile
  | [] => []
  | e :: rest => allFilesEntry pre e ++ allFilesList pre rest

end

/-- The reserved-name exclusion applied to a raw file. -/
def dropReserved (f : RawFile) : Option (String × String) :=
  if pyLower f.name ∈ reservedNames then none else some (f.rel, f.content)

/-- Dataclass `FileRecord` from `ingest.py`. -/
structure FileRecord where
  absolute_path : String
  relative_path : String
  tags : Finset String

/-- Dataclass `ProjectPlan` from `ingest.py`. -/
structure ProjectPlan where
  project_id : String
  root : String
  description : String
  files : List FileRecord

/-- The `file_count` property of `ProjectPlan`. -/
def ProjectPlan.file_count (p : ProjectPlan) : Nat := p.files.length

/-- Result of `plan_project`: the outcome and the project-directory state
after the call (`ensure_description` may create the description file). -/
structure PlanResult where
  outcome : Except IngestError ProjectPlan
  entries : List FSEntry

/-- Function `plan_project` from `ingest.py`: resolve the description (any failure
propagates), then build one `FileRecord` per discovered file with its
classified tags. Discovery runs on the post-resolution state. -/
def plan_project (project : ProjectDir) (rules : IngestionRules)
    (description_provider : Option (String → String)) : PlanResult :=
  let er := ensure_description project description_provider descriptionFilename
  match er.outcome with
  | Except.error e => ⟨Except.error e, er.entries⟩
  | Except.ok description =>
      ⟨Except.ok ⟨project.name, project.name, description,
          (iterFilesList "" er.entries).map (fun f =>
            ⟨project.name ++ "/" ++ f.1, f.1, _collect_tags f.1 rules⟩)⟩,
        er.entries⟩

/-- Scenario-A-style project used by the C2 witness. -/
def alphaProject : ProjectDir :=
  ⟨"alpha",
    [FSEntry.file "description.txt" "Alpha",
      FSEntry.file "a.py" "print",
      FSEntry.dir "docs"
        [FSEntry.file "readme.md" "r", FSEntry.file "notes.md" "n"]]⟩

/-- The rule set used by the C2 witness. -/
def scenarioRules : IngestionRules := ⟨[⟨"*.py", "code"⟩], []⟩

/-- The plan produced for `alphaProject` under `scenarioRules`. -/
def alphaPlan : ProjectPlan :=
  ⟨"alpha", "alpha", "Alpha",
    [⟨"alpha/a.py", "a.py", {"code"}⟩,
      ⟨"alpha/docs/notes.md", "docs/notes.md", ∅⟩]⟩

/-! ## Project discovery and multi-project planning -/

/-- Python `name.startswith(".")`. -/
def startsWithDot (s : String) : Bool :=
  match s.data with
  | '.' :: _ => true
  | _ => false

/-- An immediate data-root entry seen as a project directory:
`p.is_dir() and not p.name.startswith(".")`. -/
def dirAsProject : FSEntry → Option ProjectDir
  | FSEntry.dir n es => if startsWithDot n then none else some ⟨n, es⟩
  | FSEntry.file _ _ => none

/-- Function `discover_projects` from `ingest.py`: `FileNotFoundError` when the data
root does not exist (the root is modelled as `Option`, with the path string
kept for the message), otherwise every immediate non-hidden subdirectory. -/
def discover_projects (data_root : Option (List FSEntry)) (rootPath : String) :
    Except IngestError (List ProjectDir) :=
  match data_root with
  | none =>
      Except.error (IngestError.notFound ("Data directory not found: " ++ rootPath))
  | some entries => Except.ok (entries.filterMap dirAsProject)

/-- The loop body of `plan_all_projects`: skip a project when the subset is
non-empty (Python: truthy) and does not contain its name; otherwise plan it,
aborting the whole batch on the first failure. -/
def planProjectsLoop (rules : IngestionRules)
    (provider : Option (String → String)) (subset : List String) :
    List ProjectDir → Except IngestError (List ProjectPlan)
  | [] => Except.ok []
  | p :: rest =>
      if subset ≠ [] ∧ p.name ∉ subset then
        planProjectsLoop rules provider subset rest
      else
        match (plan_project p rules provider).outcome with
        | Except.error e => Except.error e
        | Except.ok plan =>
            match planProjectsLoop rules provider subset rest with
            | Except.error e => Except.error e
            | Except.ok plans => Except.ok (plan :: plans)

/-- Function `plan_all_projects` from `ingest.py`: discover project directories (a
missing data root fails), take `selected_projects or []` as the subset, and
plan each non-skipped project in discovery order. -/
def plan_all_projects (data_root : Option (List FSEntry)) (rootPath : String)
    (rules : IngestionRules) (description_provider : Option (String → String))
    (selected_projects : Option (List String)) :
    Except IngestError (List ProjectPlan) :=
  match discover_projects data_root rootPath with
  | Except.error e => Except.error e
  | Except.ok projects =>
      planProjectsLoop rules description_provider
        (selected_projects.getD []) projects

/-- The two-project data root of spec scenario D (`alpha` and `beta`). -/
def scenarioWorld : List FSEntry :=
  [FSEntry.dir "alpha" [FSEntry.file "description.txt" "a"],
    FSEntry.dir "beta" [FSEntry.file "description.txt" "b"]]

/-! ## Theorems

Supporting lemmas about the string primitives and the classifier,
followed by the verified properties of the planner. -/

theorem toNat_ofNat_of_valid (n : Nat) (h : n.isValidChar) :
    (Char.ofNat n).toNat = n := by
  simp only [Char.ofNat, dif_pos h, Char.ofNatAux, Char.toNat, UInt32.toNat,
    BitVec.toNat_ofNatLt]

theorem toLower_toLower (c : Char) : c.toLower.toLower = c.toLower := by
  by_cases h : c.toNat ≥ 65 ∧ c.toNat ≤ 90
  · have hv : (c.toNat + 32).isValidChar := Or.inl (by omega)
    have ht : (Char.ofNat (c.toNat + 32)).toNat = c.toNat + 32 :=
      toNat_ofNat_of_valid _ hv
    simp only [Char.toLower, if_pos h, ht]
    rw [if_neg (by omega)]
  · simp only [Char.toLower, if_neg h]

theorem toNat_le_of_isPySpace {c : Char} (h : isPySpace c = true) :
    c.toNat ≤ 32 := by
  simp only [isPySpace, Bool.or_eq_true, decide_eq_true_eq] at h
  rcases h with ((((h | h) | h) | h) | h) | h <;> subst h <;> decide

theorem isPySpace_eq_false_of_gt {c : Char} (h : 32 < c.toNat) :
    isPySpace c = false := by
  cases h2 : isPySpace c
  · rfl
  · exact absurd (toNat_le_of_isPySpace h2) (by omega)

theorem isPySpace_toLower (c : Char) : isPySpace c.toLower = isPySpace c := by
  by_cases h : c.toNat ≥ 65 ∧ c.toNat ≤ 90
  · have hv : (c.toNat + 32).isValidChar := Or.inl (by omega)
    have ht : (Char.ofNat (c.toNat + 32)).toNat = c.toNat + 32 :=
      toNat_ofNat_of_valid _ hv
    simp only [Char.toLower, if_pos h]
    rw [isPySpace_eq_false_of_gt (by omega), isPySpace_eq_false_of_gt (by omega)]
  · simp only [Char.toLower, if_neg h]

theorem toLower_ne_backslash {c : Char} (h : c ≠ '\\') :
    c.toLower ≠ '\\' := by
  by_cases hu : c.toNat ≥ 65 ∧ c.toNat ≤ 90
  · have hv : (c.toNat + 32).isValidChar := Or.inl (by omega)
    have ht : (Char.ofNat (c.toNat + 32)).toNat = c.toNat + 32 :=
      toNat_ofNat_of_valid _ hv
    simp only [Char.toLower, if_pos hu]
    intro hEq
    have : (Char.ofNat (c.toNat + 32)).toNat = ('\\' : Char).toNat :=
      congrArg Char.toNat hEq
    rw [ht] at this
    have : c.toNat + 32 = 92 := this
    omega
  · simpa only [Char.toLower, if_neg hu] using h

theorem dropWhile_head_not (p : Char → Bool) :
    ∀ (l : List Char) (c : Char) (t : List Char),
      l.dropWhile p = c :: t → p c = false := by
  intro l
  induction l with
  | nil => intro c t h; simp [List.dropWhile] at h
  | cons a l ih =>
      intro c t h
      by_cases ha : p a
      · rw [List.dropWhile_cons_of_pos ha] at h
        exact ih c t h
      · rw [List.dropWhile_cons_of_neg ha] at h
        cases h
        exact Bool.eq_false_iff.mpr ha

theorem dropWhile_eq_self_of_head (p : Char → Bool) (l : List Char)
    (h : ∀ c t, l = c :: t → p c = false) : l.dropWhile p = l := by
  cases l with
  | nil => rfl
  | cons a t =>
      exact List.dropWhile_cons_of_neg
        (by rw [h a t rfl]; exact Bool.false_ne_true)

theorem dropWhile_append_singleton (p : Char → Bool) (c : Char)
    (hc : p c = false) :
    ∀ xs : List Char, (xs ++ [c]).dropWhile p = xs.dropWhile p ++ [c] := by
  intro xs
  induction xs with
  | nil =>
      simp only [List.nil_append, List.dropWhile_nil]
      exact List.dropWhile_cons_of_neg (by rw [hc]; exact Bool.false_ne_true)
  | cons a xs ih =>
      by_cases ha : p a
      · rw [List.cons_append, List.dropWhile_cons_of_pos ha,
          List.dropWhile_cons_of_pos ha, ih]
      · rw [List.cons_append, List.dropWhile_cons_of_neg ha,
          List.dropWhile_cons_of_neg ha, List.cons_append]

theorem stripList_eq_self (l : List Char)
    (hhead : ∀ x s, l = x :: s → isPySpace x = false)
    (hlast : ∀ x s, l.reverse = x :: s → isPySpace x = false) :
    stripList l = l := by
  unfold stripList
  rw [dropWhile_eq_self_of_head _ _ hhead,
    dropWhile_eq_self_of_head _ _ hlast, List.reverse_reverse]

theorem stripList_head_not (l : List Char) (x : Char) (s : List Char)
    (h : stripList l = x :: s) : isPySpace x = false := by
  unfold stripList at h
  cases hm : l.dropWhile isPySpace with
  | nil => rw [hm] at h; simp at h
  | cons c t =>
      have hc : isPySpace c = false := dropWhile_head_not _ _ _ _ hm
      rw [hm, show (c :: t).reverse = t.reverse ++ [c] by simp,
        dropWhile_append_singleton _ _ hc] at h
      simp only [List.reverse_append, List.reverse_cons, List.reverse_nil,
        List.nil_append, List.singleton_append] at h
      injection h with h1 h2
      subst h1
      exact hc

theorem stripList_last_not (l : List Char) (x : Char) (s : List Char)
    (h : (stripList l).reverse = x :: s) : isPySpace x = false := by
  unfold stripList at h
  rw [List.reverse_reverse] at h
  exact dropWhile_head_not _ _ _ _ h

theorem stripList_idem (l : List Char) :
    stripList (stripList l) = stripList l :=
  stripList_eq_self (stripList l) (stripList_head_not l)
    (stripList_last_not l)

theorem dropWhile_lowerList (l : List Char) :
    (lowerList l).dropWhile isPySpace = lowerList (l.dropWhile isPySpace) := by
  induction l with
  | nil => rfl
  | cons a l ih =>
      by_cases ha : isPySpace a
      · rw [lowerList, List.map_cons, List.dropWhile_cons_of_pos
          (by rw [isPySpace_toLower]; exact ha),
          List.dropWhile_cons_of_pos ha]
        exact ih
      · rw [lowerList, List.map_cons, List.dropWhile_cons_of_neg
          (by rw [isPySpace_toLower]; exact ha),
          List.dropWhile_cons_of_neg ha]
        rfl

theorem lowerList_reverse (l : List Char) :
    lowerList l.reverse = (lowerList l).reverse := by
  simp [lowerList]

theorem stripList_lowerList (l : List Char) :
    stripList (lowerList l) = lowerList (stripList l) := by
  unfold stripList
  rw [dropWhile_lowerList, ← lowerList_reverse, dropWhile_lowerList,
    ← lowerList_reverse]

theorem lowerList_idem (l : List Char) :
    lowerList (lowerList l) = lowerList l := by
  simp only [lowerList, List.map_map]
  exact List.map_congr_left (fun c _ => toLower_toLower c)

theorem replaceBackslashes_eq_self {l : List Char} (h : '\\' ∉ l) :
    replaceBackslashes l = l := by
  induction l with
  | nil => rfl
  | cons a l ih =>
      have ha : a ≠ '\\' := fun hEq => h (hEq ▸ List.mem_cons_self a l)
      rw [replaceBackslashes, List.map_cons, if_neg ha]
      rw [replaceBackslashes] at ih
      rw [ih (fun hm => h (List.mem_cons_of_mem a hm))]

theorem not_backslash_mem_replaceBackslashes (l : List Char) :
    '\\' ∉ replaceBackslashes l := by
  intro h
  rw [replaceBackslashes, List.mem_map] at h
  obtain ⟨a, _, ha⟩ := h
  by_cases hb : a = '\\'
  · rw [if_pos hb] at ha
    exact absurd ha (by decide)
  · rw [if_neg hb] at ha
    exact hb ha

theorem mem_stripList_subset {x : Char} {l : List Char}
    (h : x ∈ stripList l) : x ∈ l := by
  unfold stripList at h
  rw [List.mem_reverse] at h
  have h1 := (List.dropWhile_sublist
    (l := (l.dropWhile isPySpace).reverse) (p := isPySpace)).subset h
  rw [List.mem_reverse] at h1
  exact (List.dropWhile_sublist (l := l) (p := isPySpace)).subset h1

theorem not_backslash_mem_lowerList {l : List Char} (h : '\\' ∉ l) :
    '\\' ∉ lowerList l := by
  intro hm
  rw [lowerList, List.mem_map] at hm
  obtain ⟨a, haMem, ha⟩ := hm
  exact toLower_ne_backslash (fun hEq => h (hEq ▸ haMem)) ha

/-- Core of the idempotence claim: the full normalization chain is idempotent at the list level. -/
theorem normalizeList_idem (l : List Char) :
    lowerList (stripList (replaceBackslashes
      (lowerList (stripList (replaceBackslashes l)))))
      = lowerList (stripList (replaceBackslashes l)) := by
  have hA : '\\' ∉ replaceBackslashes l := not_backslash_mem_replaceBackslashes l
  have hB : '\\' ∉ stripList (replaceBackslashes l) :=
    fun hm => hA (mem_stripList_subset hm)
  have hC : '\\' ∉ lowerList (stripList (replaceBackslashes l)) :=
    not_backslash_mem_lowerList hB
  rw [replaceBackslashes_eq_self hC, stripList_lowerList, stripList_idem,
    lowerList_idem]

/-- C8: `_normalize_rel_path` is idempotent. -/
theorem normalize_rel_path_idem (s : String) :
    _normalize_rel_path (_normalize_rel_path s) = _normalize_rel_path s := by
  show (⟨lowerList (stripList (replaceBackslashes
    (lowerList (stripList (replaceBackslashes s.data)))))⟩ : String)
    = ⟨lowerList (stripList (replaceBackslashes s.data))⟩
  exact congrArg String.mk (normalizeList_idem s.data)

example : fnmatch "a.py" "*.py" = true := by decide

example : fnmatch "src/a.py" "*.py" = true := by decide

example : fnmatch "a.txt" "*.py" = false := by decide

example : fnmatch "ab" "a[b-d]" = true := by decide

example : fnmatch "ab" "a[!b-d]" = false := by decide

example : fnmatch "a]" "a[]]" = true := by decide

example : fnmatch "a[" "a[" = true := by decide

example : fnmatch "abc" "a?c" = true := by decide

theorem mem_foldl_collect (lowered : String) (ps : List IngestionRule)
    (acc : Finset String) (t : String) :
    (t ∈ ps.foldl
      (fun acc p => if fnmatch lowered (pyLower p.«match») then insert p.tag acc else acc) acc) ↔
    t ∈ acc ∨ ∃ r ∈ ps, fnmatch lowered (pyLower r.«match») = true ∧ t = r.tag := by
  induction ps generalizing acc with
  | nil => simp
  | cons p ps ih =>
      rw [List.foldl_cons]
      by_cases h : fnmatch lowered (pyLower p.«match») = true
      · rw [if_pos h, ih]
        simp only [Finset.mem_insert, List.mem_cons]
        constructor
        · rintro ((rfl | hacc) | ⟨r, hr, hm, rfl⟩)
          · exact Or.inr ⟨p, Or.inl rfl, h, rfl⟩
          · exact Or.inl hacc
          · exact Or.inr ⟨r, Or.inr hr, hm, rfl⟩
        · rintro (hacc | ⟨r, (rfl | hr), hm, rfl⟩)
          · exact Or.inl (Or.inr hacc)
          · exact Or.inl (Or.inl rfl)
          · exact Or.inr ⟨r, hr, hm, rfl⟩
      · rw [if_neg h, ih]
        simp only [List.mem_cons]
        constructor
        · rintro (hacc | ⟨r, hr, hm, rfl⟩)
          · exact Or.inl hacc
          · exact Or.inr ⟨r, Or.inr hr, hm, rfl⟩
        · rintro (hacc | ⟨r, (rfl | hr), hm, rfl⟩)
          · exact Or.inl hacc
          · exact absurd hm h
          · exact Or.inr ⟨r, hr, hm, rfl⟩

/-- Membership characterization of `_collect_tags` (shared helper). -/
theorem mem_collect_tags (rel : String) (rules : IngestionRules) (t : String) :
    t ∈ _collect_tags rel rules ↔
      (∃ r ∈ rules.patterns,
        fnmatch (pyLower rel) (pyLower r.«match») = true ∧ t = r.tag) ∨
      (∃ ts, lookupForced rules.forced (_normalize_rel_path rel) = some ts ∧ t ∈ ts) := by
  unfold _collect_tags
  cases hl : lookupForced rules.forced (_normalize_rel_path rel) with
  | none =>
      simp only [mem_foldl_collect, Finset.not_mem_empty, false_or]
      constructor
      · exact fun h => Or.inl h
      · rintro (h | ⟨ts, hts, _⟩)
        · exact h
        · exact Option.noConfusion hts
  | some ts =>
      simp only [Finset.mem_union, mem_foldl_collect, Finset.not_mem_empty, false_or]
      constructor
      · rintro (h | h)
        · exact Or.inl h
        · exact Or.inr ⟨ts, rfl, h⟩
      · rintro (h | ⟨ts2, hts2, hmem⟩)
        · exact Or.inl h
        · injection hts2 with hEq
          subst hEq
          exact Or.inr hmem

/-- C1: the tag classifier returns exactly the union of (a) the tags of all
pattern rules whose lower-cased glob matches the lower-cased relative path —
matching applied to the whole path, so `*.py` matches `src/a.py` across the
separator — and (b) the forced tags stored under the normalized relative
path; when nothing matches the result is the empty set (not an error). -/
theorem collect_tags_spec :
    (∀ (rel : String) (rules : IngestionRules) (t : String),
      t ∈ _collect_tags rel rules ↔
        (∃ r ∈ rules.patterns,
          fnmatch (pyLower rel) (pyLower r.«match») = true ∧ t = r.tag) ∨
        (∃ ts, lookupForced rules.forced (_normalize_rel_path rel) = some ts ∧ t ∈ ts)) ∧
    fnmatch (pyLower "src/a.py") (pyLower "*.py") = true ∧
    (∀ (rel : String) (rules : IngestionRules),
      (∀ r ∈ rules.patterns, fnmatch (pyLower rel) (pyLower r.«match») = false) →
      lookupForced rules.forced (_normalize_rel_path rel) = none →
      _collect_tags rel rules = ∅) := by
  refine ⟨mem_collect_tags, by decide, ?_⟩
  intro rel rules hpat hforced
  ext t
  rw [mem_collect_tags]
  simp only [Finset.not_mem_empty, iff_false]
  rintro (⟨r, hr, hm, rfl⟩ | ⟨ts, hts, _⟩)
  · rw [hpat r hr] at hm; cases hm
  · rw [hforced] at hts; cases hts

/-- Witness for C1: a path matched by no pattern rule and absent from the
forced mapping gets the empty tag set. -/
theorem collect_tags_spec_witness :
    _collect_tags "b.txt"
      ⟨[⟨"*.py", "code"⟩], [("docs/x.md", {"important"})]⟩ = ∅ :=
  collect_tags_spec.2.2 "b.txt"
    ⟨[⟨"*.py", "code"⟩], [("docs/x.md", {"important"})]⟩
    (by decide) (by decide)

/-- C7: pattern-rule order is irrelevant to classification (permuting the
rule sequence leaves the tag set unchanged), and a path matched by two
overlapping patterns carries both tags with set semantics (no duplicates:
the two-rule example below yields exactly the two-element set). -/
theorem collect_tags_order_irrelevant :
    (∀ (rel : String) (forced : List (String × Finset String))
      (ps ps2 : List IngestionRule), ps.Perm ps2 →
      _collect_tags rel ⟨ps, forced⟩ = _collect_tags rel ⟨ps2, forced⟩) ∧
    (∀ (rel : String) (rules : IngestionRules) (r1 r2 : IngestionRule),
      r1 ∈ rules.patterns → r2 ∈ rules.patterns →
      fnmatch (pyLower rel) (pyLower r1.«match») = true →
      fnmatch (pyLower rel) (pyLower r2.«match») = true →
      r1.tag ∈ _collect_tags rel rules ∧ r2.tag ∈ _collect_tags rel rules) ∧
    _collect_tags "a.py" ⟨[⟨"*.py", "code"⟩, ⟨"a.*", "alpha"⟩], []⟩
      = {"code", "alpha"} := by
  refine ⟨?_, ?_, by decide⟩
  · intro rel forced ps ps2 hperm
    ext t
    rw [mem_collect_tags, mem_collect_tags]
    constructor
    · rintro (⟨r, hr, hm, rfl⟩ | h)
      · exact Or.inl ⟨r, hperm.mem_iff.mp hr, hm, rfl⟩
      · exact Or.inr h
    · rintro (⟨r, hr, hm, rfl⟩ | h)
      · exact Or.inl ⟨r, hperm.mem_iff.mpr hr, hm, rfl⟩
      · exact Or.inr h
  · intro rel rules r1 r2 h1 h2 hm1 hm2
    exact ⟨(mem_collect_tags rel rules r1.tag).mpr (Or.inl ⟨r1, h1, hm1, rfl⟩),
      (mem_collect_tags rel rules r2.tag).mpr (Or.inl ⟨r2, h2, hm2, rfl⟩)⟩

/-- Witness for C7: permuting a concrete two-rule sequence leaves the tag
set unchanged, and both overlapping tags are present. -/
theorem collect_tags_order_irrelevant_witness :
    _collect_tags "a.py" ⟨[⟨"*.py", "code"⟩, ⟨"a.*", "alpha"⟩], []⟩
      = _collect_tags "a.py" ⟨[⟨"a.*", "alpha"⟩, ⟨"*.py", "code"⟩], []⟩ ∧
    "code" ∈ _collect_tags "a.py" ⟨[⟨"*.py", "code"⟩, ⟨"a.*", "alpha"⟩], []⟩ ∧
    "alpha" ∈ _collect_tags "a.py" ⟨[⟨"*.py", "code"⟩, ⟨"a.*", "alpha"⟩], []⟩ :=
  ⟨collect_tags_order_irrelevant.1 "a.py" []
      [⟨"*.py", "code"⟩, ⟨"a.*", "alpha"⟩] [⟨"a.*", "alpha"⟩, ⟨"*.py", "code"⟩]
      (List.Perm.swap _ _ _),
    (collect_tags_order_irrelevant.2.1 "a.py"
      ⟨[⟨"*.py", "code"⟩, ⟨"a.*", "alpha"⟩], []⟩ ⟨"*.py", "code"⟩ ⟨"a.*", "alpha"⟩
      (by decide) (by decide) (by decide) (by decide)).1,
    (collect_tags_order_irrelevant.2.1 "a.py"
      ⟨[⟨"*.py", "code"⟩, ⟨"a.*", "alpha"⟩], []⟩ ⟨"*.py", "code"⟩ ⟨"a.*", "alpha"⟩
      (by decide) (by decide) (by decide) (by decide)).2⟩

theorem pyStrip_idem (s : String) : pyStrip (pyStrip s) = pyStrip s :=
  congrArg String.mk (stripList_idem s.data)

theorem lookupEntry_append_file (es : List FSEntry) (fn c : String)
    (h : lookupEntry es fn = none) :
    lookupEntry (es ++ [FSEntry.file fn c]) fn = some (FSEntry.file fn c) := by
  induction es with
  | nil => simp [lookupEntry]
  | cons e rest ih =>
      cases e with
      | file n c2 =>
          by_cases hn : n = fn
          · rw [lookupEntry, if_pos hn] at h
            cases h
          · rw [lookupEntry, if_neg hn] at h
            rw [List.cons_append, lookupEntry, if_neg hn]
            exact ih h
      | dir n es2 =>
          by_cases hn : n = fn
          · rw [lookupEntry, if_pos hn] at h
            cases h
          · rw [lookupEntry, if_neg hn] at h
            rw [List.cons_append, lookupEntry, if_neg hn]
            exact ih h

/-- C4: description resolution is idempotent. If the description file was
absent and one call with a provider succeeded (persisting the generated
text), a second call on the resulting state returns the same text and does
not invoke the provider, whatever provider it is given. -/
theorem ensure_description_idempotent (project : ProjectDir)
    (p : String → String) (d fn : String) (provider2 : Option (String → String))
    (habsent : lookupEntry project.entries fn = none)
    (hok : (ensure_description project (some p) fn).outcome = Except.ok d) :
    (ensure_description ⟨project.name,
        (ensure_description project (some p) fn).entries⟩ provider2 fn).outcome
      = Except.ok d ∧
    (ensure_description ⟨project.name,
        (ensure_description project (some p) fn).entries⟩ provider2 fn).providerInvoked
      = false := by
  by_cases hg : pyStrip (p project.name) = ""
  · exfalso
    simp only [ensure_description, habsent] at hok
    rw [if_pos hg] at hok
    exact Except.noConfusion hok
  · have h1 : ensure_description project (some p) fn
        = ⟨Except.ok (pyStrip (p project.name)),
            project.entries ++ [FSEntry.file fn (pyStrip (p project.name))], true⟩ := by
      simp only [ensure_description, habsent]
      rw [if_neg hg]
    rw [h1] at hok
    have hd : d = pyStrip (p project.name) := (Except.ok.inj hok).symm
    rw [h1]
    simp only [ensure_description,
      lookupEntry_append_file project.entries fn _ habsent]
    refine ⟨?_, trivial⟩
    rw [pyStrip_idem, hd]

/-- Witness for C4 at a concrete project and provider. -/
theorem ensure_description_idempotent_witness :
    (ensure_description ⟨"proj",
        (ensure_description ⟨"proj", []⟩ (some fun _ => " text ")
          "description.txt").entries⟩ none "description.txt").outcome
      = Except.ok "text" ∧
    (ensure_description ⟨"proj",
        (ensure_description ⟨"proj", []⟩ (some fun _ => " text ")
          "description.txt").entries⟩ none "description.txt").providerInvoked
      = false :=
  ensure_description_idempotent ⟨"proj", []⟩ (fun _ => " text ") "text"
    "description.txt" none rfl rfl

theorem lookupEntry_name (es : List FSEntry) (nm : String) (e : FSEntry)
    (h : lookupEntry es nm = some e) : entryName e = nm := by
  induction es with
  | nil => cases h
  | cons e2 rest ih =>
      cases e2 with
      | file n c =>
          by_cases hn : n = nm
          · rw [lookupEntry, if_pos hn] at h
            injection h with hEq
            subst hEq
            exact hn
          · rw [lookupEntry, if_neg hn] at h
            exact ih h
      | dir n es2 =>
          by_cases hn : n = nm
          · rw [lookupEntry, if_pos hn] at h
            injection h with hEq
            subst hEq
            exact hn
          · rw [lookupEntry, if_neg hn] at h
            exact ih h

theorem missingMsg_names_filename (fn nm : String) :
    fn.data <:+: (missingDescriptionMsg fn nm).data :=
  ⟨"Missing ".data,
    (" for project '" ++ nm ++
      "'. Provide a description via the ingestion API or create the file manually.").data,
    by simp [missingDescriptionMsg]⟩

theorem missingMsg_names_project (fn nm : String) :
    nm.data <:+: (missingDescriptionMsg fn nm).data :=
  ⟨("Missing " ++ fn ++ " for project '").data,
    "'. Provide a description via the ingestion API or create the file manually.".data,
    by simp [missingDescriptionMsg]⟩

/-- C5: outcome characterization of `ensure_description`. It fails with
`FileNotFoundError` — whose message names the missing file and the project —
exactly when the description file is absent and no provider is given; it
fails with `ValueError` exactly when the file is absent and the provider's
text trims to empty; and it succeeds exactly when the description file is
present or the provider's text trims to non-empty. -/
theorem ensure_description_outcomes (project : ProjectDir)
    (provider : Option (String → String)) (fn : String) :
    ((∃ msg, (ensure_description project provider fn).outcome
        = Except.error (IngestError.notFound msg)
        ∧ fn.data <:+: msg.data ∧ project.name.data <:+: msg.data)
      ↔ lookupEntry project.entries fn = none ∧ provider = none) ∧
    ((∃ msg, (ensure_description project provider fn).outcome
        = Except.error (IngestError.valueError msg))
      ↔ lookupEntry project.entries fn = none
        ∧ ∃ p, provider = some p ∧ pyStrip (p project.name) = "") ∧
    ((∃ s, (ensure_description project provider fn).outcome = Except.ok s)
      ↔ (∃ c, lookupEntry project.entries fn = some (FSEntry.file fn c))
        ∨ (lookupEntry project.entries fn = none
            ∧ ∃ p, provider = some p ∧ pyStrip (p project.name) ≠ "")) := by
  cases hl : lookupEntry project.entries fn with
  | some e =>
      cases e with
      | file n c =>
          have hn : n = fn := lookupEntry_name _ _ _ hl
          rw [hn] at hl
          have he : ensure_description project provider fn
              = ⟨Except.ok (pyStrip c), project.entries, false⟩ := by
            simp only [ensure_description, hl]
          rw [he]
          refine ⟨?_, ?_, ?_⟩
          · simp
          · simp
          · exact iff_of_true ⟨pyStrip c, rfl⟩ (Or.inl ⟨c, by rw [hn]⟩)
      | dir n es2 =>
          have he : ensure_description project provider fn
              = ⟨Except.error (IngestError.ioError ("Is a directory: " ++ fn)),
                  project.entries, false⟩ := by
            simp only [ensure_description, hl]
          rw [he]
          refine ⟨?_, ?_, ?_⟩
          · simp
          · simp
          · simp
  | none =>
      cases provider with
      | none =>
          have he : ensure_description project none fn
              = ⟨Except.error (IngestError.notFound
                    (missingDescriptionMsg fn project.name)),
                  project.entries, false⟩ := by
            simp only [ensure_description, hl]
          rw [he]
          refine ⟨?_, ?_, ?_⟩
          · exact iff_of_true
              ⟨missingDescriptionMsg fn project.name, rfl,
                missingMsg_names_filename fn project.name,
                missingMsg_names_project fn project.name⟩
              ⟨rfl, rfl⟩
          · simp
          · simp
      | some p =>
          by_cases hg : pyStrip (p project.name) = ""
          · have he : ensure_description project (some p) fn
                = ⟨Except.error
                      (IngestError.valueError "Description provider returned empty text"),
                    project.entries, true⟩ := by
              simp only [ensure_description, hl]
              rw [if_pos hg]
            rw [he]
            refine ⟨?_, ?_, ?_⟩
            · simp
            · exact iff_of_true ⟨"Description provider returned empty text", rfl⟩
                ⟨rfl, p, rfl, hg⟩
            · simp [hg]
          · have he : ensure_description project (some p) fn
                = ⟨Except.ok (pyStrip (p project.name)),
                    project.entries ++ [FSEntry.file fn (pyStrip (p project.name))],
                    true⟩ := by
              simp only [ensure_description, hl]
              rw [if_neg hg]
            rw [he]
            refine ⟨?_, ?_, ?_⟩
            · simp
            · simp [hg]
            · exact iff_of_true ⟨pyStrip (p project.name), rfl⟩
                (Or.inr ⟨rfl, p, rfl, hg⟩)

/-- C9: when the description file is absent and the provider's text trims to
empty, `ensure_description` raises `ValueError` before writing anything: the
directory state is unchanged, and a subsequent call with a provider whose
text trims to non-empty still takes the generation branch (invoking the
provider and succeeding). -/
theorem ensure_description_empty_provider_no_write (project : ProjectDir)
    (p : String → String) (fn : String)
    (habsent : lookupEntry project.entries fn = none)
    (hempty : pyStrip (p project.name) = "") :
    (ensure_description project (some p) fn).outcome
      = Except.error (IngestError.valueError "Description provider returned empty text") ∧
    (ensure_description project (some p) fn).entries = project.entries ∧
    ∀ (q : String → String), pyStrip (q project.name) ≠ "" →
      (ensure_description ⟨project.name,
          (ensure_description project (some p) fn).entries⟩ (some q) fn).outcome
        = Except.ok (pyStrip (q project.name)) ∧
      (ensure_description ⟨project.name,
          (ensure_description project (some p) fn).entries⟩ (some q) fn).providerInvoked
        = true := by
  have he : ensure_description project (some p) fn
      = ⟨Except.error (IngestError.valueError "Description provider returned empty text"),
          project.entries, true⟩ := by
    simp only [ensure_description, habsent]
    rw [if_pos hempty]
  refine ⟨by rw [he], by rw [he], ?_⟩
  intro q hq
  rw [he]
  have he2 : ensure_description ⟨project.name, project.entries⟩ (some q) fn
      = ⟨Except.ok (pyStrip (q project.name)),
          project.entries ++ [FSEntry.file fn (pyStrip (q project.name))], true⟩ := by
    simp only [ensure_description, habsent]
    rw [if_neg hq]
  exact ⟨by rw [he2], by rw [he2]⟩

/-- Witness for C9 at a concrete project: the empty-trimming provider fails
without creating the file, and a later valid provider succeeds. -/
theorem ensure_description_empty_provider_no_write_witness :
    (ensure_description ⟨"p", []⟩ (some fun _ => " ") "description.txt").outcome
      = Except.error (IngestError.valueError "Description provider returned empty text") ∧
    (ensure_description ⟨"p", []⟩ (some fun _ => " ") "description.txt").entries = [] ∧
    (ensure_description ⟨"p",
        (ensure_description ⟨"p", []⟩ (some fun _ => " ") "description.txt").entries⟩
      (some fun _ => "ok") "description.txt").outcome = Except.ok "ok" :=
  have h := ensure_description_empty_provider_no_write ⟨"p", []⟩ (fun _ => " ")
    "description.txt" rfl rfl
  ⟨h.1, h.2.1, (h.2.2 (fun _ => "ok") (by decide)).1⟩

/-- C10: a description file that exists but contains only whitespace makes
`ensure_description` succeed with the empty string, without consulting the
provider and without raising: the empty-description validation applies only
to provider-generated text. -/
theorem ensure_description_whitespace_file (project : ProjectDir)
    (provider : Option (String → String)) (fn c : String)
    (hfile : lookupEntry project.entries fn = some (FSEntry.file fn c))
    (hws : pyStrip c = "") :
    (ensure_description project provider fn).outcome = Except.ok "" ∧
    (ensure_description project provider fn).providerInvoked = false := by
  have he : ensure_description project provider fn
      = ⟨Except.ok (pyStrip c), project.entries, false⟩ := by
    simp only [ensure_description, hfile]
  rw [he, hws]
  exact ⟨rfl, rfl⟩

/-- Witness for C10: a whitespace-only description file yields the empty
string even when a provider is available. -/
theorem ensure_description_whitespace_file_witness :
    (ensure_description ⟨"p", [FSEntry.file "description.txt" "   "]⟩
        (some fun _ => "x") "description.txt").outcome = Except.ok "" ∧
    (ensure_description ⟨"p", [FSEntry.file "description.txt" "   "]⟩
        (some fun _ => "x") "description.txt").providerInvoked = false :=
  ensure_description_whitespace_file ⟨"p", [FSEntry.file "description.txt" "   "]⟩
    (some fun _ => "x") "description.txt" "   " rfl rfl

mutual

theorem iterFilesEntry_eq (pre : String) (e : FSEntry) :
    iterFilesEntry pre e = (allFilesEntry pre e).filterMap dropReserved := by
  cases e with
  | file name content =>
      by_cases h : pyLower name ∈ reservedNames
      · simp [iterFilesEntry, allFilesEntry, dropReserved, h]
      · simp [iterFilesEntry, allFilesEntry, dropReserved, h]
  | dir name entries =>
      rw [iterFilesEntry, allFilesEntry]
      exact iterFilesList_eq (pre ++ name ++ "/") entries

theorem iterFilesList_eq (pre : String) (es : List FSEntry) :
    iterFilesList pre es = (allFilesList pre es).filterMap dropReserved := by
  cases es with
  | nil => rfl
  | cons e rest =>
      rw [iterFilesList, allFilesList, List.filterMap_append,
        iterFilesEntry_eq pre e, iterFilesList_eq pre rest]

end

theorem map_fst_filterMap_dropReserved (l : List RawFile) :
    (l.filterMap dropReserved).map Prod.fst
      = l.filterMap (fun f =>
          if pyLower f.name ∈ reservedNames then none else some f.rel) := by
  rw [List.map_filterMap]
  apply List.filterMap_congr
  intro f _
  by_cases h : pyLower f.name ∈ reservedNames
  · simp [dropReserved, h]
  · simp [dropReserved, h]

/-- C2: whenever `plan_project` succeeds, the relative paths of its
`FileRecord`s are exactly the non-reserved files found recursively under the
(post-resolution) project directory, in traversal order — one record per
non-reserved file, none for directories; and a project containing only a
description file yields a plan with zero `FileRecord`s. -/
theorem plan_project_records :
    (∀ (project : ProjectDir) (rules : IngestionRules)
      (provider : Option (String → String)) (plan : ProjectPlan),
      (plan_project project rules provider).outcome = Except.ok plan →
      plan.files.map FileRecord.relative_path
        = (allFilesList "" (plan_project project rules provider).entries).filterMap
            (fun f =>
              if pyLower f.name ∈ reservedNames then none else some f.rel)) ∧
    ∀ (rules : IngestionRules) (plan : ProjectPlan),
      (plan_project ⟨"p", [FSEntry.file "description.txt" "d"]⟩ rules none).outcome
        = Except.ok plan → plan.files = [] := by
  constructor
  · intro project rules provider plan h
    cases her : (ensure_description project provider descriptionFilename).outcome with
    | error e =>
        exfalso
        simp only [plan_project, her] at h
        exact Except.noConfusion h
    | ok d =>
        have hp : plan_project project rules provider
            = ⟨Except.ok ⟨project.name, project.name, d,
                  (iterFilesList ""
                      (ensure_description project provider descriptionFilename).entries).map
                    (fun f => ⟨project.name ++ "/" ++ f.1, f.1, _collect_tags f.1 rules⟩)⟩,
                (ensure_description project provider descriptionFilename).entries⟩ := by
          simp only [plan_project, her]
        rw [hp] at h
        have hplan := Except.ok.inj h
        subst hplan
        rw [hp]
        rw [List.map_map]
        rw [show (FileRecord.relative_path ∘ fun (f : String × String) =>
            (⟨project.name ++ "/" ++ f.1, f.1, _collect_tags f.1 rules⟩ : FileRecord))
          = Prod.fst from rfl]
        rw [iterFilesList_eq, map_fst_filterMap_dropReserved]
  · intro rules plan h
    have he : (plan_project ⟨"p", [FSEntry.file "description.txt" "d"]⟩ rules none).outcome
        = Except.ok ⟨"p", "p", "d", []⟩ := rfl
    rw [he] at h
    have := Except.ok.inj h
    subst this
    rfl

/-- Witness for C2: on a concrete project (description file, one `.py` file,
a subdirectory with a `readme.md` and a notes file) planning succeeds and
the record paths are exactly the non-reserved files. -/
theorem plan_project_records_witness :
    (plan_project alphaProject scenarioRules none).outcome = Except.ok alphaPlan ∧
    alphaPlan.files.map FileRecord.relative_path
      = (allFilesList "" (plan_project alphaProject scenarioRules none).entries).filterMap
          (fun f => if pyLower f.name ∈ reservedNames then none else some f.rel) :=
  ⟨rfl, plan_project_records.1 alphaProject scenarioRules none alphaPlan rfl⟩

theorem planProjectsLoop_subset (rules : IngestionRules)
    (provider : Option (String → String)) (sel : List String) (hsel : sel ≠ [])
    (projects : List ProjectDir) :
    planProjectsLoop rules provider sel projects
      = planProjectsLoop rules provider []
          (projects.filter (fun p => decide (p.name ∈ sel))) := by
  induction projects with
  | nil => rfl
  | cons p rest ih =>
      by_cases hmem : p.name ∈ sel
      · have hskip : ¬(sel ≠ [] ∧ p.name ∉ sel) := fun hc => hc.2 hmem
        rw [planProjectsLoop, if_neg hskip,
          show (p :: rest).filter (fun p => decide (p.name ∈ sel))
              = p :: rest.filter (fun p => decide (p.name ∈ sel)) by
            simp [List.filter_cons, hmem],
          planProjectsLoop,
          if_neg (show ¬(([] : List String) ≠ [] ∧ p.name ∉ ([] : List String))
            from fun hc => hc.1 rfl), ih]
      · have hskip : sel ≠ [] ∧ p.name ∉ sel := ⟨hsel, hmem⟩
        rw [planProjectsLoop, if_pos hskip,
          show (p :: rest).filter (fun p => decide (p.name ∈ sel))
              = rest.filter (fun p => decide (p.name ∈ sel)) by
            simp [List.filter_cons, hmem], ih]

/-- C3 (amended): for every NON-empty subset, `plan_all_projects` processes
exactly the discovered directories whose name is in the subset (subset names
with no directory on disk are silently ignored — the filter just yields
fewer projects, never an error); an empty subset, like an omitted one, is
falsy in Python and disables filtering entirely. Scenario D: with subset
`["alpha"]` over `alpha` and `beta`, exactly one plan results, for `alpha`;
the extra absent name in `["alpha", "gamma"]` changes nothing. -/
theorem plan_all_projects_subset_filter :
    (∀ (entries : List FSEntry) (rootPath : String) (rules : IngestionRules)
      (provider : Option (String → String)) (sel : List String), sel ≠ [] →
      plan_all_projects (some entries) rootPath rules provider (some sel)
        = planProjectsLoop rules provider []
            ((entries.filterMap dirAsProject).filter
              (fun p => decide (p.name ∈ sel)))) ∧
    (∀ (entries : List FSEntry) (rootPath : String) (rules : IngestionRules)
      (provider : Option (String → String)),
      plan_all_projects (some entries) rootPath rules provider (some [])
        = plan_all_projects (some entries) rootPath rules provider none) ∧
    plan_all_projects (some scenarioWorld) "/data" ⟨[], []⟩ none (some ["alpha"])
      = Except.ok [⟨"alpha", "alpha", "a", []⟩] ∧
    plan_all_projects (some scenarioWorld) "/data" ⟨[], []⟩ none
        (some ["alpha", "gamma"])
      = Except.ok [⟨"alpha", "alpha", "a", []⟩] := by
  refine ⟨?_, fun _ _ _ _ => rfl, rfl, rfl⟩
  intro entries rootPath rules provider sel hsel
  show planProjectsLoop rules provider sel (entries.filterMap dirAsProject)
      = planProjectsLoop rules provider []
          ((entries.filterMap dirAsProject).filter (fun p => decide (p.name ∈ sel)))
  exact planProjectsLoop_subset rules provider sel hsel _

/-- C3 counterexample to the claim as stated: with the subset given as the
EMPTY list over a data root containing `alpha` and `beta`, the code
processes BOTH projects (the empty set is falsy, so no filtering happens),
whereas the claim mandates processing exactly the projects named in the
subset, i.e. none. -/
theorem plan_all_projects_empty_subset_counterexample :
    plan_all_projects (some scenarioWorld) "/data" ⟨[], []⟩ none (some [])
      = Except.ok [⟨"alpha", "alpha", "a", []⟩, ⟨"beta", "beta", "b", []⟩] := rfl

/-- Witness for C3 at a concrete non-empty subset. -/
theorem plan_all_projects_subset_filter_witness :
    plan_all_projects (some scenarioWorld) "/data" ⟨[], []⟩ none (some ["beta"])
      = planProjectsLoop ⟨[], []⟩ none []
          ((scenarioWorld.filterMap dirAsProject).filter
            (fun p => decide (p.name ∈ ["beta"]))) :=
  plan_all_projects_subset_filter.1 scenarioWorld "/data" ⟨[], []⟩ none ["beta"]
    (by decide)

/-- C6: when the data root does not exist, `plan_all_projects` fails with
the `FileNotFoundError` propagated from `discover_projects`, whatever the
rules, provider and subset are — in particular the result does not depend on
the provider, so no description is resolved, no file is discovered, and no
description file is created for any project. -/
theorem plan_all_projects_missing_root (rootPath : String)
    (rules : IngestionRules) (provider : Option (String → String))
    (selected : Option (List String)) :
    plan_all_projects none rootPath rules provider selected
      = Except.error
          (IngestError.notFound ("Data directory not found: " ++ rootPath)) := rfl

end ProjectNavigator

